import Mathlib

/-!
Verification of the spreadsheet_ai_arena core: dataset materialization
(archive-extraction containment, checkout orchestration) and the concurrent
task queue (lease/submit/grade lifecycle), shallowly embedded from the
Python sources.
-/

set_option maxRecDepth 4000

namespace Arena

/-! ## Path model

Absolute filesystem paths are lists of components.  `Path.resolve()` in
the source normalizes `.` and `..` components; we model that directly.
`str(path)` renders an absolute path as `/`-joined components.
-/

/-- Absolute path as a list of components (no leading slash stored). -/
abbrev PathC := List String

/-- One step of lexical normalization: `.` and empty components vanish,
`..` pops the last kept component (at the root it stays at the root),
anything else is kept.  `acc` holds kept components in reverse. -/
def resolveAux : List String → List String → List String
  | acc, [] => acc.reverse
  | acc, c :: rest =>
    if c = "." ∨ c = "" then resolveAux acc rest
    else if c = ".." then resolveAux acc.tail rest
    else resolveAux (c :: acc) rest

/-- `Path.resolve()` on an absolute path: lexical normalization of
`.` and `..` components. -/
def resolvePath (p : PathC) : PathC := resolveAux [] p

/-- `str(path)` for an absolute path. -/
def renderPath (p : PathC) : String := "/" ++ String.intercalate "/" p

/-- Python's `s.startswith(pre)`: character-wise prefix test. -/
def pyStartsWith (s pre : String) : Bool := List.isPrefixOf pre.data s.data

/-- The real containment relation: the resolved candidate path is the
destination directory itself or lies below it (component-wise prefix). -/
def insideDir (dest cand : PathC) : Bool :=
  List.isPrefixOf (resolvePath dest) (resolvePath cand)

/-! ## Archive extraction (transforms.py)

`_safe_untar` / `_safe_unzip` first iterate over *all* members checking
`str((dest / m.name).resolve()).startswith(str(dest.resolve()))` and raise
on the first offender; only after the whole loop passes do they call
`extractall(dest)`.  An archive member name is a relative path, modelled
as a component list (which may contain `..`).
-/

/-- The destination path an archive member resolves to:
`(dest / member).resolve()`. -/
def memberResolved (dest : PathC) (member : List String) : PathC :=
  resolvePath (dest ++ member)

/-- The source's per-member check:
`str((dest / m.name).resolve()).startswith(str(dest.resolve()))`. -/
def memberCheck (dest : PathC) (member : List String) : Bool :=
  pyStartsWith (renderPath (memberResolved dest member))
    (renderPath (resolvePath dest))

/-- The validation loop of `_safe_untar` / `_safe_unzip`: raise
(`Except.error`) at the first member failing `memberCheck`, otherwise pass. -/
def checkMembers (dest : PathC) : List (List String) → Except String Unit
  | [] => .ok ()
  | m :: ms =>
    if memberCheck dest m then checkMembers dest ms
    else .error ("Unsafe archive member path: " ++ renderPath m)

/-- `_safe_untar` (and identically `_safe_unzip`): validate every member,
then extract all of them; on a validation failure nothing is extracted.
The returned list is the set of resolved paths written by `extractall`. -/
def safe_extract (dest : PathC) (members : List (List String)) :
    Except String (List PathC) :=
  match checkMembers dest members with
  | .error e => .error e
  | .ok _ => .ok (members.map (memberResolved dest))

/-! Task queue (mcp/tools/task_queue.py): data model.

Statuses are the strings "pending" | "in_progress" | "completed" in the
source; timestamps (time.time()) are modelled by a logical clock `now`
carried in the state and advanced by each mutating operation; the results
directory is modelled as an association list keyed by the task id (the
zero-padded file name `task_{id:05d}.json`).  Grading dictionaries are
association lists of strings.
-/

inductive Status
  | pending
  | in_progress
  | completed

deriving DecidableEq, Repr

/-- TaskSpec (datasets/tasks.py): id, instruction, optional input/answer
path, free-form metadata. -/
structure TaskSpec where
  id : String
  instruction : String
  input_path : Option String
  answer_path : Option String
  meta : List (String × String)

deriving DecidableEq, Repr

/-- A grading dictionary (Python `Dict[str, Any]`), as an association list. -/
abbrev GradeDict := List (String × String)

/-- The persisted per-task result record. -/
structure ResultRec where
  task_id : Nat
  spec_id : String
  output_path : Option String
  grade : Option GradeDict
  submitted_at : Nat

deriving DecidableEq, Repr

/-- QueueItem: one TaskSpec with mutable lifecycle fields. -/
structure QueueItem where
  id : Nat
  spec : TaskSpec
  status : Status
  started_at : Option Nat
  finished_at : Option Nat
  result : Option ResultRec

deriving DecidableEq, Repr

/-- `QueueItem(id=i, spec=s)`: the dataclass defaults. -/
def mkItem (i : Nat) (s : TaskSpec) : QueueItem :=
  { id := i, spec := s, status := .pending, started_at := none,
    finished_at := none, result := none }

/-- Default used by the total list accessor `List.getD`. -/
def dfltItem : QueueItem :=
  mkItem 0 { id := "", instruction := "", input_path := none,
             answer_path := none, meta := [] }

/-- The TaskQueue's mutable state. -/
structure QueueState where
  items : List QueueItem
  in_progress_set : List Nat
  completed : Nat
  results_disk : List (Nat × ResultRec)
  now : Nat

deriving DecidableEq, Repr

/-- `TaskQueue.__init__`: one pending item per spec, ids by position. -/
def initQueue (specs : List TaskSpec) : QueueState :=
  { items := specs.mapIdx mkItem, in_progress_set := [], completed := 0,
    results_disk := [], now := 0 }

/-- The sanitized view returned by `next_task`: task id, spec id,
instruction, input reference and metadata — no answer reference. -/
structure LeaseView where
  task_id : Nat
  id : String
  instruction : String
  input : Option String
  meta : List (String × String)

deriving DecidableEq, Repr

/-- The dict literal built inside `next_task` for a leased item. -/
def leaseView (it : QueueItem) : LeaseView :=
  { task_id := it.id, id := it.spec.id, instruction := it.spec.instruction,
    input := it.spec.input_path, meta := it.spec.meta }

/-- The scan loop of `next_task`: first item with status `pending` is
flipped to `in_progress` and its lease time stamped; later items are left
alone.  Returns the view and the updated item list, or `none` when no
item is pending. -/
def leaseScan (now : Nat) : List QueueItem → Option (LeaseView × List QueueItem)
  | [] => none
  | it :: rest =>
    if it.status = .pending then
      some (leaseView it,
        { it with status := .in_progress, started_at := some now } :: rest)
    else
      match leaseScan now rest with
      | some (v, rest2) => some (v, it :: rest2)
      | none => none

/-- `TaskQueue.next_task`: lease the next pending task (or `None`). -/
def next_task (s : QueueState) : Option LeaseView × QueueState :=
  match leaseScan s.now s.items with
  | some (v, items2) =>
    (some v,
     { s with
       items := items2
       in_progress_set := v.task_id :: s.in_progress_set
       now := s.now + 1 })
  | none => (none, s)

/-- The two exceptions `submit_answer` raises: ValueError on an
out-of-range id, RuntimeError on a status other than `in_progress`. -/
inductive SubmitErr
  | unknown_task_id (t : Int)
  | not_in_progress (t : Int) (st : Status)

deriving DecidableEq, Repr

/-- The dict `submit_answer` returns. -/
structure Ack where
  ok : Bool
  grade : Option GradeDict
  completed : Nat
  total : Nat

deriving DecidableEq, Repr

/-- The grading callback: a raised exception is `Except.error msg`. -/
abbrev Grader := TaskSpec → String → Except String GradeDict

/-- Writing `task_{id:05d}.json`: overwrite the entry with that key. -/
def writeResult (disk : List (Nat × ResultRec)) (k : Nat) (r : ResultRec) :
    List (Nat × ResultRec) :=
  (k, r) :: disk.filter (fun p => p.1 ≠ k)

/-- `p_out = Path(output_path) if output_path else None`: the empty
string is falsy. -/
def submitPOut (output_path : Option String) : Option String :=
  match output_path with
  | some o => if o = "" then none else some o
  | none => none

/-- The grading block of `submit_answer`: run the callback only when one
is configured and an output path was given; a raised exception becomes the
structured grading-error dictionary. -/
def submitGrade (grader : Option Grader) (sp : TaskSpec)
    (p_out : Option String) : GradeDict :=
  match grader, p_out with
  | some g, some o =>
    match g sp o with
    | .ok d => d
    | .error e => [("status", "grading_error"), ("error", e)]
  | _, _ => []

/-- `grade or None`: the empty dictionary is falsy. -/
def submitGradeOpt (grader : Option Grader) (sp : TaskSpec)
    (p_out : Option String) : Option GradeDict :=
  if submitGrade grader sp p_out = [] then none
  else some (submitGrade grader sp p_out)

/-- The record `submit_answer` persists for item `it`. -/
def submitRecord (grader : Option Grader) (it : QueueItem)
    (output_path : Option String) (now : Nat) : ResultRec :=
  { task_id := it.id
    spec_id := it.spec.id
    output_path := submitPOut output_path
    grade := submitGradeOpt grader it.spec (submitPOut output_path)
    submitted_at := now }

/-- The completed item `submit_answer` stores back. -/
def submitItem (grader : Option Grader) (it : QueueItem)
    (output_path : Option String) (now : Nat) : QueueItem :=
  { it with
    status := .completed
    finished_at := some now
    result := some (submitRecord grader it output_path now) }

/-- `TaskQueue.submit_answer`.  The grader is configuration fixed at
construction, threaded here as a parameter.  Mirrors the source line by
line: range check, status check, optional grading with exception capture,
`grade or None`, persist, mark completed, increment the counter. -/
def submit_answer (grader : Option Grader) (s : QueueState) (task_id : Int)
    (output_path : Option String) : Except SubmitErr Ack × QueueState :=
  if task_id < 0 ∨ (s.items.length : Int) ≤ task_id then
    (.error (.unknown_task_id task_id), s)
  else
    let it := s.items.getD task_id.toNat dfltItem
    if it.status ≠ .in_progress then
      (.error (.not_in_progress task_id it.status), s)
    else
      (.ok { ok := true
             grade := submitGradeOpt grader it.spec (submitPOut output_path)
             completed := s.completed + 1
             total := s.items.length },
       { s with
         items := s.items.set task_id.toNat
           (submitItem grader it output_path s.now)
         in_progress_set := s.in_progress_set.filter (fun x => x ≠ it.id)
         completed := s.completed + 1
         results_disk := writeResult s.results_disk it.id
           (submitRecord grader it output_path s.now)
         now := s.now + 1 })

/-- `pending_count`. -/
def pending_count (s : QueueState) : Nat :=
  (s.items.filter (fun it => it.status = .pending)).length

/-- `completed_count`. -/
def completed_count (s : QueueState) : Nat := s.completed

/-! Operation sequences over the queue. -/

/-- One client-visible operation. -/
inductive QOp
  | lease
  | submit (task_id : Int) (output_path : Option String)

deriving DecidableEq, Repr

/-- The state after one operation. -/
def stepOp (grader : Option Grader) (s : QueueState) : QOp → QueueState
  | .lease => (next_task s).2
  | .submit t o => (submit_answer grader s t o).2

/-- The state after a sequence of operations. -/
def runOps (grader : Option Grader) : QueueState → List QOp → QueueState
  | s, [] => s
  | s, op :: ops => runOps grader (stepOp grader s op) ops

/-- The task ids handed out by the lease calls of an operation sequence,
in order. -/
def leasedIds (grader : Option Grader) : QueueState → List QOp → List Nat
  | _, [] => []
  | s, .lease :: ops =>
    (match (next_task s).1 with
     | some v => [v.task_id]
     | none => []) ++ leasedIds grader (next_task s).2 ops
  | s, .submit t o :: ops => leasedIds grader (submit_answer grader s t o).2 ops

/-- Item accessor by position. -/
def getItem (s : QueueState) (i : Nat) : QueueItem := s.items.getD i dfltItem

/-- Status of the item at position `i`. -/
def getStatus (s : QueueState) (i : Nat) : Status := (getItem s i).status

/-- Forward order of the lifecycle. -/
def rank : Status → Nat
  | .pending => 0
  | .in_progress => 1
  | .completed => 2

/-! Checkout orchestrator (datasets/checkout.py).

Filesystem trees are abstract contents (strings); the world tracks the
registry, the installed destinations (keyed by dataset id under the output
directory), how often the source fetcher ran, and whether a staging
temporary directory is left behind.  The fallible stages — `_fetch_source`,
`shutil.copytree` into the working directory, and `apply_transforms` — are
passed in as `Except`-valued functions.  `tempfile.TemporaryDirectory` is a
context manager: it removes the staging directory on success and on an
exception alike, which is why every exit leaves `tmpExists = false`.
-/

/-- DatasetConfig (checkout.py). -/
structure DatasetConfig where
  id : String
  version : String
  source : String
  transforms : List String
  manifest : Option String

deriving DecidableEq, Repr

/-- The world `checkout_one` acts on. -/
structure World where
  registry : List (String × DatasetConfig)
  dests : List (String × String)
  fetchCalls : Nat
  tmpExists : Bool

deriving DecidableEq, Repr

/-- `checkout_one(dataset_id, output_dir, update)`: registry lookup, cache
hit, else fetch → copy to working dir → transform inside a temporary
directory, then atomically replace the destination. -/
def checkout_one (fetch : String → Except String String)
    (copyTree : String → Except String String)
    (transformRun : List String → String → Except String String)
    (w : World) (dataset_id : String) (update : Bool) :
    Except String String × World :=
  match w.registry.lookup dataset_id with
  | none => (.error ("Dataset " ++ dataset_id ++ " not found in registry"), w)
  | some cfg =>
    if (w.dests.lookup dataset_id).isSome ∧ ¬update then
      (.ok dataset_id, w)
    else
      match fetch cfg.source with
      | .error e =>
        (.error e, { w with fetchCalls := w.fetchCalls + 1, tmpExists := false })
      | .ok fetched =>
        match copyTree fetched with
        | .error e =>
          (.error e, { w with fetchCalls := w.fetchCalls + 1, tmpExists := false })
        | .ok work =>
          match transformRun cfg.transforms work with
          | .error e =>
            (.error e, { w with fetchCalls := w.fetchCalls + 1, tmpExists := false })
          | .ok final =>
            (.ok dataset_id,
             { w with
               dests := (dataset_id, final)
                 :: w.dests.filter (fun p => p.1 ≠ dataset_id)
               fetchCalls := w.fetchCalls + 1
               tmpExists := false })

/-! Manifest parsing (datasets/tasks.py). -/

/-- One manifest record (a JSON object); the five recognized keys, each
possibly absent, plus the remaining fields (`meta`). -/
structure TaskRecord where
  id : Option String
  name : Option String
  instruction : Option String
  input : Option String
  answer : Option String
  extra : List (String × String)

deriving DecidableEq, Repr

/-- Python truthiness on an optional string: `None` and `""` are falsy. -/
def pyTruthy : Option String → Option String
  | some s => if s = "" then none else some s
  | none => none

/-- Whether a path string is absolute. -/
def isAbsolute (s : String) : Bool := pyStartsWith s "/"

/-- Components of a path string. -/
def splitComps (s : String) : List String := s.splitOn "/"

/-- `_maybe_rel(base, s)`: `None` for a falsy value, an absolute path kept
as given, a relative one joined to the dataset root and resolved. -/
def maybe_rel (base : String) (s : Option String) : Option String :=
  match s with
  | none => none
  | some str =>
    if str = "" then none
    else if isAbsolute str then some str
    else some (renderPath (resolvePath (splitComps base ++ splitComps str)))

/-- An apostrophe, kept out of string literals. -/
def sq : String := String.singleton (Char.ofNat 39)

/-- The body of the `_parse_tasks` loop for the record at position `pos`
(0-based; the placeholder id is 1-based `task-{len(out)+1}`):
`str(t.get("id") or t.get("name") or f"task-{...}")`, instruction
defaulting to `f"Run benchmark task '{tid}'."`, input/answer resolved by
`_maybe_rel`, the remaining fields as metadata. -/
def mkSpecFromRecord (root : String) (pos : Nat) (t : TaskRecord) : TaskSpec :=
  let tid :=
    match pyTruthy t.id with
    | some s => s
    | none =>
      match pyTruthy t.name with
      | some s => s
      | none => "task-" ++ toString (pos + 1)
  let instr :=
    match pyTruthy t.instruction with
    | some s => s
    | none => "Run benchmark task " ++ sq ++ tid ++ sq ++ "."
  { id := tid
    instruction := instr
    input_path := maybe_rel root t.input
    answer_path := maybe_rel root t.answer
    meta := t.extra }

/-- The loop of `_parse_tasks`, carrying the number of records already
emitted. -/
def parseTasksAux (root : String) (k : Nat) : List TaskRecord → List TaskSpec
  | [] => []
  | t :: rest => mkSpecFromRecord root k t :: parseTasksAux root (k + 1) rest

/-- Manifest contents: a bare array, an object wrapping a `tasks` array, or
anything else. -/
inductive Manifest
  | arr (records : List TaskRecord)
  | obj (records : List TaskRecord)
  | other

deriving DecidableEq, Repr

/-- `_parse_tasks(obj, dataset_root)`. -/
def _parse_tasks (root : String) : Manifest → Except String (List TaskSpec)
  | .arr rs => .ok (parseTasksAux root 0 rs)
  | .obj rs => .ok (parseTasksAux root 0 rs)
  | .other => .error "Manifest must be a JSON array or an object with a tasks array"

/-! Helper lemmas on list update and the queue operations. -/

def idsOk (s : QueueState) : Prop :=
  ∀ i, i < s.items.length → (getItem s i).id = i

def countC (items : List QueueItem) : Nat :=
  (items.filter (fun it => it.status = Status.completed)).length

/-- Position `k` of the run is where item `i` newly becomes in_progress. -/
def entersAt (grader : Option Grader) (specs : List TaskSpec) (ops : List QOp)
    (i k : Nat) : Prop :=
  k < ops.length
  ∧ getStatus (runOps grader (initQueue specs) (ops.take k)) i ≠ .in_progress
  ∧ getStatus (runOps grader (initQueue specs) (ops.take (k + 1))) i = .in_progress

def wSpec : TaskSpec :=
  { id := "t1", instruction := "do X", input_path := none,
    answer_path := none, meta := [] }

/-- Erase the answer reference from a spec. -/
def eraseSpec (sp : TaskSpec) : TaskSpec := { sp with answer_path := none }

def eraseItem (it : QueueItem) : QueueItem := { it with spec := eraseSpec it.spec }

def eraseState (s : QueueState) : QueueState := { s with items := s.items.map eraseItem }

def gBoom : Grader := fun _ _ => .error "boom"

def gEmpty : Grader := fun _ _ => .ok []

def wState : QueueState := (next_task (initQueue [wSpec])).2

/-- Whether an Except is an error. -/
def isErr {ε α : Type} : Except ε α → Bool
  | .error _ => true
  | .ok _ => false

def cfgW : DatasetConfig :=
  { id := "d", version := "1", source := "srcurl", transforms := [],
    manifest := none }

def wNoReg : World :=
  { registry := [], dests := [("d", "content")], fetchCalls := 0,
    tmpExists := false }

def wReg : World :=
  { registry := [("d", cfgW)], dests := [("d", "content")], fetchCalls := 0,
    tmpExists := false }

def dfltRec : TaskRecord :=
  { id := none, name := none, instruction := none, input := none,
    answer := none, extra := [] }

def dfltSpec : TaskSpec :=
  { id := "", instruction := "", input_path := none, answer_path := none,
    meta := [] }

def recT1 : TaskRecord :=
  { id := some "t1", name := none, instruction := some "do X", input := none,
    answer := none, extra := [] }

def recEmptyId : TaskRecord :=
  { id := some "", name := none, instruction := some "do X", input := none,
    answer := none, extra := [] }

theorem getD_set_self {α : Type} (l : List α) (n : Nat) (a d : α)
    (h : n < l.length) : (l.set n a).getD n d = a := by
  induction l generalizing n with
  | nil => simp at h
  | cons x xs ih =>
    cases n with
    | zero => simp
    | succ m =>
      simp only [List.length_cons] at h
      simp only [List.set_cons_succ, List.getD_cons_succ]
      exact ih m (by omega)

theorem getD_set_ne {α : Type} (l : List α) (m n : Nat) (a d : α)
    (h : m ≠ n) : (l.set m a).getD n d = l.getD n d := by
  induction l generalizing m n with
  | nil => simp [List.set]
  | cons x xs ih =>
    cases m with
    | zero =>
      cases n with
      | zero => exact absurd rfl h
      | succ k => simp
    | succ j =>
      cases n with
      | zero => simp
      | succ k =>
        simp only [List.set_cons_succ, List.getD_cons_succ]
        exact ih j k (by omega)

theorem leaseScan_none_iff (now : Nat) (items : List QueueItem) :
    leaseScan now items = none ↔ ∀ it ∈ items, it.status ≠ .pending := by
  induction items with
  | nil => simp [leaseScan]
  | cons it rest ih =>
    by_cases hp : it.status = Status.pending
    · simp [leaseScan, hp]
    · rw [leaseScan, if_neg hp]
      cases hrec : leaseScan now rest with
      | none =>
        simp only [hrec, List.mem_cons]
        constructor
        · intro _ x hx
          rcases hx with h1 | h2
          · rw [h1]; exact hp
          · exact (ih.mp hrec) x h2
        · intro _; trivial
      | some p =>
        obtain ⟨v, rest2⟩ := p
        simp only [hrec]
        constructor
        · intro h; exact absurd h (by simp)
        · intro h
          have := (ih.mpr (fun x hx => h x (List.mem_cons_of_mem _ hx)))
          rw [this] at hrec
          exact absurd hrec (by simp)

/-- What a successful scan does: the first pending item, at position `n`,
is flipped to in_progress with its lease time stamped; every other item
is untouched. -/
theorem leaseScan_some (now : Nat) (items : List QueueItem) :
    ∀ v items2, leaseScan now items = some (v, items2) →
    ∃ n, n < items.length ∧
      (items.getD n dfltItem).status = .pending ∧
      (∀ j, j < n → (items.getD j dfltItem).status ≠ .pending) ∧
      v = leaseView (items.getD n dfltItem) ∧
      items2 = items.set n
        { items.getD n dfltItem with
          status := .in_progress
          started_at := some now } := by
  induction items with
  | nil => intro v items2 h; simp [leaseScan] at h
  | cons it rest ih =>
    intro v items2 h
    by_cases hp : it.status = Status.pending
    · rw [leaseScan, if_pos hp] at h
      simp only [Option.some.injEq, Prod.mk.injEq] at h
      obtain ⟨rfl, rfl⟩ := h
      refine ⟨0, by simp, by simpa using hp, ?_, by simp, by simp⟩
      intro j hj; exact absurd hj (Nat.not_lt_zero j)
    · rw [leaseScan, if_neg hp] at h
      cases hrec : leaseScan now rest with
      | none => rw [hrec] at h; simp at h
      | some p =>
        obtain ⟨v0, rest2⟩ := p
        rw [hrec] at h
        simp only [Option.some.injEq, Prod.mk.injEq] at h
        obtain ⟨rfl, rfl⟩ := h
        obtain ⟨n, hn, hstat, hbefore, hview, hset⟩ := ih v0 rest2 hrec
        refine ⟨n + 1, by simpa using Nat.succ_lt_succ hn, by simpa using hstat,
          ?_, by simpa using hview, ?_⟩
        · intro j hj
          cases j with
          | zero => simpa using hp
          | succ k =>
            simp only [List.getD_cons_succ]
            exact hbefore k (by omega)
        · simp only [List.set_cons_succ, List.getD_cons_succ]
          rw [← hset]

/-- State shape of a successful lease. -/
theorem next_task_some_spec (s : QueueState) (v : LeaseView) (s2 : QueueState)
    (h : next_task s = (some v, s2)) :
    ∃ n, n < s.items.length ∧
      (getItem s n).status = .pending ∧
      (∀ j, j < n → (getItem s j).status ≠ .pending) ∧
      v = leaseView (getItem s n) ∧
      s2 = { s with
             items := s.items.set n
               { getItem s n with
                 status := .in_progress
                 started_at := some s.now }
             in_progress_set := v.task_id :: s.in_progress_set
             now := s.now + 1 } := by
  unfold next_task at h
  cases hls : leaseScan s.now s.items with
  | none => rw [hls] at h; simp at h
  | some p =>
    obtain ⟨v0, items2⟩ := p
    rw [hls] at h
    simp only [Prod.mk.injEq, Option.some.injEq] at h
    obtain ⟨rfl, rfl⟩ := h
    obtain ⟨n, hn, hstat, hbefore, hview, hset⟩ :=
      leaseScan_some s.now s.items v0 items2 hls
    exact ⟨n, hn, hstat, hbefore, hview, by rw [hset]; rfl⟩

/-- An exhausted queue leaves the state untouched. -/
theorem next_task_none_spec (s : QueueState)
    (h : ∀ it ∈ s.items, it.status ≠ .pending) : next_task s = (none, s) := by
  unfold next_task
  rw [(leaseScan_none_iff s.now s.items).mpr h]

/-- The two result shapes of submit_answer: an error leaves the state as
it was; success completes the indexed in_progress item and bumps the
counter. -/
theorem submit_state_spec (grader : Option Grader) (s : QueueState)
    (t : Int) (o : Option String) :
    (submit_answer grader s t o).2 = s ∨
    (t.toNat < s.items.length ∧
      (getItem s t.toNat).status = .in_progress ∧
      (submit_answer grader s t o).2.items
        = s.items.set t.toNat (submitItem grader (getItem s t.toNat) o s.now) ∧
      (submit_answer grader s t o).2.completed = s.completed + 1 ∧
      (submit_answer grader s t o).2.now = s.now + 1) := by
  by_cases h1 : t < 0 ∨ (s.items.length : Int) ≤ t
  · left; simp only [submit_answer, if_pos h1]
  · by_cases h2 : (getItem s t.toNat).status = Status.in_progress
    · right
      refine ⟨by push_neg at h1; omega, h2, ?_, ?_, ?_⟩ <;>
        simp [submit_answer, h1, getItem] at h2 ⊢ <;> simp [h2, getItem]
    · left
      simp [submit_answer, h1, getItem] at h2 ⊢
      simp [h2]

theorem countC_cons (x : QueueItem) (xs : List QueueItem) :
    countC (x :: xs)
      = (if x.status = Status.completed then 1 else 0) + countC xs := by
  by_cases hx : x.status = Status.completed
  · simp [countC, List.filter_cons, hx]
    omega
  · simp [countC, List.filter_cons, hx]

theorem countC_set_stay (l : List QueueItem) (n : Nat) (a : QueueItem)
    (hold : (l.getD n dfltItem).status ≠ .completed)
    (hnew : a.status ≠ .completed) :
    countC (l.set n a) = countC l := by
  induction l generalizing n with
  | nil => simp [List.set]
  | cons x xs ih =>
    cases n with
    | zero =>
      simp only [List.getD_cons_zero] at hold
      simp [List.set_cons_zero, countC_cons, hold, hnew]
    | succ m =>
      simp only [List.getD_cons_succ] at hold
      simp [List.set_cons_succ, countC_cons, ih m hold]

theorem countC_set_complete (l : List QueueItem) (n : Nat) (a : QueueItem)
    (hn : n < l.length)
    (hold : (l.getD n dfltItem).status ≠ .completed)
    (hnew : a.status = .completed) :
    countC (l.set n a) = countC l + 1 := by
  induction l generalizing n with
  | nil => simp at hn
  | cons x xs ih =>
    cases n with
    | zero =>
      simp only [List.getD_cons_zero] at hold
      simp [List.set_cons_zero, countC_cons, hold, hnew]
      omega
    | succ m =>
      simp only [List.getD_cons_succ] at hold
      simp only [List.length_cons] at hn
      simp [List.set_cons_succ, countC_cons, ih m (by omega) hold]
      omega

theorem countC_le_length (l : List QueueItem) : countC l ≤ l.length :=
  List.length_filter_le _ l

theorem next_task_none_eq (s : QueueState) (h : (next_task s).1 = none) :
    (next_task s).2 = s := by
  unfold next_task at *
  cases hls : leaseScan s.now s.items with
  | none => rfl
  | some p => rw [hls] at h; simp at h

/-- Lease step: length, ids, rank monotonicity, counter, completed count. -/
theorem lease_step_facts (s : QueueState) :
    (next_task s).2.items.length = s.items.length
    ∧ (idsOk s → idsOk (next_task s).2)
    ∧ (∀ i, rank (getStatus s i) ≤ rank (getStatus (next_task s).2 i))
    ∧ (next_task s).2.completed = s.completed
    ∧ countC (next_task s).2.items = countC s.items := by
  cases hv : (next_task s).1 with
  | none =>
    rw [next_task_none_eq s hv]
    exact ⟨rfl, fun h => h, fun i => le_refl _, rfl, rfl⟩
  | some v =>
    have hpair : next_task s = (some v, (next_task s).2) := by
      rw [← hv]
    obtain ⟨n, hn, hstat, _, _, hs2⟩ := next_task_some_spec s v _ hpair
    rw [hs2]
    refine ⟨List.length_set s.items n _, ?_, ?_, rfl, ?_⟩
    · intro hids i hi
      simp only [List.length_set] at hi
      by_cases hin : i = n
      · subst hin
        simp only [getItem, getD_set_self s.items i _ dfltItem hi]
        exact hids i hi
      · simp only [getItem, getD_set_ne s.items n i _ dfltItem (fun hne => hin hne.symm)]
        exact hids i hi
    · intro i
      by_cases hin : i = n
      · subst hin
        simp only [getStatus, getItem, getD_set_self s.items i _ dfltItem hn]
        simp only [getItem] at hstat
        rw [hstat]
        simp [rank]
      · simp only [getStatus, getItem,
          getD_set_ne s.items n i _ dfltItem (fun hne => hin hne.symm)]
        exact le_refl _
    · apply countC_set_stay
      · simp only [getItem] at hstat
        rw [hstat]; simp
      · simp

/-- Submit step: length, ids, rank monotonicity, counter vs completed count. -/
theorem submit_step_facts (grader : Option Grader) (s : QueueState)
    (t : Int) (o : Option String) :
    (submit_answer grader s t o).2.items.length = s.items.length
    ∧ (idsOk s → idsOk (submit_answer grader s t o).2)
    ∧ (∀ i, rank (getStatus s i) ≤ rank (getStatus (submit_answer grader s t o).2 i))
    ∧ s.completed ≤ (submit_answer grader s t o).2.completed
    ∧ (s.completed = countC s.items →
        (submit_answer grader s t o).2.completed
          = countC (submit_answer grader s t o).2.items) := by
  rcases submit_state_spec grader s t o with heq | ⟨hn, hst, hitems, hcomp, _⟩
  · rw [heq]
    exact ⟨rfl, fun h => h, fun i => le_refl _, le_refl _, fun h => h⟩
  · refine ⟨by rw [hitems]; exact List.length_set s.items _ _, ?_, ?_, by omega, ?_⟩
    · intro hids i hi
      rw [hitems] at hi
      simp only [List.length_set] at hi
      by_cases hin : i = t.toNat
      · subst hin
        simp only [getItem, hitems, getD_set_self s.items _ _ dfltItem hi]
        exact hids _ hi
      · simp only [getItem, hitems,
          getD_set_ne s.items t.toNat i _ dfltItem (fun hne => hin hne.symm)]
        exact hids i hi
    · intro i
      by_cases hin : i = t.toNat
      · subst hin
        simp only [getStatus, getItem, hitems,
          getD_set_self s.items _ _ dfltItem hn]
        simp only [getItem] at hst
        rw [hst]
        show rank Status.in_progress ≤ rank Status.completed
        simp [rank]
      · simp only [getStatus, getItem, hitems,
          getD_set_ne s.items t.toNat i _ dfltItem (fun hne => hin hne.symm)]
        exact le_refl _
    · intro hinv
      rw [hcomp, hitems, hinv]
      have hcnt : countC (s.items.set t.toNat (submitItem grader (getItem s t.toNat) o s.now))
          = countC s.items + 1 := by
        apply countC_set_complete _ _ _ hn
        · simp only [getItem] at hst
          rw [hst]; simp
        · exact rfl
      omega

/-- All per-step facts for an arbitrary operation. -/
theorem step_facts (grader : Option Grader) (s : QueueState) (op : QOp) :
    (stepOp grader s op).items.length = s.items.length
    ∧ (idsOk s → idsOk (stepOp grader s op))
    ∧ (∀ i, rank (getStatus s i) ≤ rank (getStatus (stepOp grader s op) i))
    ∧ s.completed ≤ (stepOp grader s op).completed
    ∧ (s.completed = countC s.items →
        (stepOp grader s op).completed = countC (stepOp grader s op).items) := by
  cases op with
  | lease =>
    obtain ⟨h1, h2, h3, h4, h5⟩ := lease_step_facts s
    exact ⟨h1, h2, h3, by rw [stepOp, h4], by intro h; rw [stepOp, h4, h5, h]⟩
  | submit t o => exact submit_step_facts grader s t o

/-- Facts that hold over any run of operations. -/
theorem run_facts (grader : Option Grader) (ops : List QOp) (s : QueueState) :
    (runOps grader s ops).items.length = s.items.length
    ∧ (idsOk s → idsOk (runOps grader s ops))
    ∧ (∀ i, rank (getStatus s i) ≤ rank (getStatus (runOps grader s ops) i))
    ∧ s.completed ≤ (runOps grader s ops).completed
    ∧ (s.completed = countC s.items →
        (runOps grader s ops).completed = countC (runOps grader s ops).items) := by
  induction ops generalizing s with
  | nil => exact ⟨rfl, fun h => h, fun i => le_refl _, le_refl _, fun h => h⟩
  | cons op ops ih =>
    obtain ⟨s1, s2, s3, s4, s5⟩ := step_facts grader s op
    obtain ⟨i1, i2, i3, i4, i5⟩ := ih (stepOp grader s op)
    refine ⟨by rw [runOps, i1, s1], ?_, ?_, ?_, ?_⟩
    · intro h; exact i2 (s2 h)
    · intro i; exact le_trans (s3 i) (i3 i)
    · exact le_trans s4 i4
    · intro h; exact i5 (s5 h)

theorem initQueue_length (specs : List TaskSpec) :
    (initQueue specs).items.length = specs.length := by
  simp [initQueue]

theorem initQueue_idsOk (specs : List TaskSpec) : idsOk (initQueue specs) := by
  intro i hi
  simp only [initQueue] at hi ⊢
  simp only [List.length_mapIdx] at hi
  simp [getItem, List.getD, List.getElem?_mapIdx, List.getElem?_eq_getElem hi, mkItem]

theorem initQueue_countC (specs : List TaskSpec) :
    countC (initQueue specs).items = 0 := by
  simp only [countC, initQueue, List.length_eq_zero]
  rw [List.filter_eq_nil_iff]
  intro a ha
  obtain ⟨i, hlt, hb⟩ := List.exists_of_mem_mapIdx ha
  rw [← hb]
  simp [mkItem]

/-- Under position-consistent ids, a lease hands out the id of a pending
item and marks exactly that item in_progress. -/
theorem next_task_leased_id (s : QueueState) (v : LeaseView) (s2 : QueueState)
    (hids : idsOk s) (h : next_task s = (some v, s2)) :
    v.task_id < s.items.length
    ∧ getStatus s v.task_id = .pending
    ∧ getStatus s2 v.task_id = .in_progress := by
  obtain ⟨n, hn, hstat, _, hview, hs2⟩ := next_task_some_spec s v s2 h
  have hvid : v.task_id = n := by
    rw [hview]
    show (getItem s n).id = n
    exact hids n hn
  subst hvid
  refine ⟨hn, hstat, ?_⟩
  rw [hs2]
  simp only [getStatus, getItem, getD_set_self s.items _ _ dfltItem hn]

/-- An item that has already left pending is never handed out again. -/
theorem not_leased (grader : Option Grader) (ops : List QOp) :
    ∀ s i, idsOk s → 1 ≤ rank (getStatus s i) →
      i ∉ leasedIds grader s ops := by
  induction ops with
  | nil => intro s i _ _ h; simp [leasedIds] at h
  | cons op ops ih =>
    intro s i hids hrk
    cases op with
    | lease =>
      cases hv : (next_task s).1 with
      | none =>
        rw [leasedIds, hv]
        simp only [List.nil_append]
        rw [next_task_none_eq s hv]
        exact ih s i hids hrk
      | some v =>
        rw [leasedIds, hv]
        have hpair : next_task s = (some v, (next_task s).2) := by rw [← hv]
        obtain ⟨hlt, hpend, _⟩ := next_task_leased_id s v _ hids hpair
        have hne : v.task_id ≠ i := by
          intro he
          rw [← he, hpend] at hrk
          simp [rank] at hrk
        obtain ⟨_, hids2, hmono, _, _⟩ := lease_step_facts s
        simp only [List.singleton_append, List.mem_cons, not_or]
        exact ⟨fun he => hne he.symm,
          ih _ i (hids2 hids) (le_trans hrk (hmono i))⟩
    | submit t o =>
      rw [leasedIds]
      obtain ⟨_, hids2, hmono, _, _⟩ := submit_step_facts grader s t o
      exact ih _ i (hids2 hids) (le_trans hrk (hmono i))

/-- No task id is ever handed out twice. -/
theorem leasedIds_nodup (grader : Option Grader) (ops : List QOp) :
    ∀ s, idsOk s → (leasedIds grader s ops).Nodup := by
  induction ops with
  | nil => intro s _; simp [leasedIds]
  | cons op ops ih =>
    intro s hids
    cases op with
    | lease =>
      cases hv : (next_task s).1 with
      | none =>
        rw [leasedIds, hv]
        simp only [List.nil_append]
        rw [next_task_none_eq s hv]
        exact ih s hids
      | some v =>
        rw [leasedIds, hv]
        have hpair : next_task s = (some v, (next_task s).2) := by rw [← hv]
        obtain ⟨_, _, hip⟩ := next_task_leased_id s v _ hids hpair
        obtain ⟨_, hids2, _, _, _⟩ := lease_step_facts s
        simp only [List.singleton_append, List.nodup_cons]
        refine ⟨?_, ih _ (hids2 hids)⟩
        apply not_leased
        · exact hids2 hids
        · rw [hip]
          simp [rank]
    | submit t o =>
      rw [leasedIds]
      obtain ⟨_, hids2, _, _, _⟩ := submit_step_facts grader s t o
      exact ih _ (hids2 hids)

theorem runOps_append (grader : Option Grader) (s : QueueState)
    (ops more : List QOp) :
    runOps grader s (ops ++ more) = runOps grader (runOps grader s ops) more := by
  induction ops generalizing s with
  | nil => rfl
  | cons op ops ih => simp only [List.cons_append, runOps]; exact ih _

theorem rank_take_mono (grader : Option Grader) (specs : List TaskSpec)
    (ops : List QOp) (i a b : Nat) (hab : a ≤ b) :
    rank (getStatus (runOps grader (initQueue specs) (ops.take a)) i)
      ≤ rank (getStatus (runOps grader (initQueue specs) (ops.take b)) i) := by
  have hsplit : ops.take b = ops.take a ++ (ops.drop a).take (b - a) := by
    rw [← List.take_add]
    congr 1
    omega
  rw [hsplit, runOps_append]
  exact (run_facts grader _ _).2.2.1 i

/-- C1: the containment check of the archive extraction steps can be
bypassed: the member `../destX/payload` of an archive extracted into
`/tmp/dest` resolves to `/tmp/destX/payload`, which passes the
string-prefix check (so the whole archive is extracted) although the
resolved path lies outside the destination directory. -/
theorem C1_containment_check_bypassed :
    memberCheck ["tmp", "dest"] ["..", "destX", "payload"] = true
    ∧ safe_extract ["tmp", "dest"] [["good.txt"], ["..", "destX", "payload"]]
        = .ok [["tmp", "dest", "good.txt"], ["tmp", "destX", "payload"]]
    ∧ insideDir ["tmp", "dest"]
        (memberResolved ["tmp", "dest"] ["..", "destX", "payload"]) = false := by
  refine ⟨by decide, by rfl, by decide⟩

/-- C2: a lease call returns the first item in original declared order whose
status is pending, atomically flipping exactly that item to in_progress and
stamping its lease time; it returns a null result when no pending items
remain and leaves the state untouched; and across any sequence of lease and
submit calls no task id is ever handed out twice. -/
theorem C2_lease_first_pending_exclusive :
    (∀ s v s2, next_task s = (some v, s2) →
      ∃ n, n < s.items.length
        ∧ (getItem s n).status = .pending
        ∧ (∀ j, j < n → (getItem s j).status ≠ .pending)
        ∧ v = leaseView (getItem s n)
        ∧ (getItem s2 n).status = .in_progress
        ∧ (getItem s2 n).started_at = some s.now
        ∧ (∀ j, j ≠ n → getItem s2 j = getItem s j))
    ∧ (∀ s, (∀ it ∈ s.items, it.status ≠ .pending) → next_task s = (none, s))
    ∧ (∀ grader specs ops, (leasedIds grader (initQueue specs) ops).Nodup) := by
  refine ⟨?_, next_task_none_spec, ?_⟩
  · intro s v s2 h
    obtain ⟨n, hn, hstat, hbefore, hview, hs2⟩ := next_task_some_spec s v s2 h
    refine ⟨n, hn, hstat, hbefore, hview, ?_, ?_, ?_⟩
    · rw [hs2]
      simp only [getItem, getD_set_self s.items _ _ dfltItem hn]
    · rw [hs2]
      simp only [getItem, getD_set_self s.items _ _ dfltItem hn]
    · intro j hj
      rw [hs2]
      simp only [getItem, getD_set_ne s.items n j _ dfltItem (fun he => hj he.symm)]
  · intro grader specs ops
    exact leasedIds_nodup grader ops (initQueue specs) (initQueue_idsOk specs)

/-- C4: over every sequence of lease and submit operations, each item's
status only moves forward along pending -> in_progress -> completed (rank
never decreases along any extension of a run), each item enters in_progress
at most once, and the completed counter is monotonically non-decreasing and
never exceeds the total item count. -/
theorem C4_status_forward_counter_monotone :
    (∀ grader specs ops more i,
      rank (getStatus (runOps grader (initQueue specs) ops) i)
        ≤ rank (getStatus (runOps grader (initQueue specs) (ops ++ more)) i))
    ∧ (∀ grader specs ops i k1 k2,
        entersAt grader specs ops i k1 → entersAt grader specs ops i k2 → k1 = k2)
    ∧ (∀ grader specs ops more,
        (runOps grader (initQueue specs) ops).completed
          ≤ (runOps grader (initQueue specs) (ops ++ more)).completed)
    ∧ (∀ grader specs ops,
        (runOps grader (initQueue specs) ops).completed ≤ specs.length) := by
  refine ⟨?_, ?_, ?_, ?_⟩
  · intro grader specs ops more i
    rw [runOps_append]
    exact (run_facts grader more _).2.2.1 i
  · intro grader specs ops i k1 k2 h1 h2
    by_contra hne
    have key : ∀ a b, entersAt grader specs ops i a → entersAt grader specs ops i b →
        a < b → False := by
      intro a b ha hb hab
      have h1le : rank (getStatus (runOps grader (initQueue specs) (ops.take (a + 1))) i)
          ≤ rank (getStatus (runOps grader (initQueue specs) (ops.take b)) i) :=
        rank_take_mono grader specs ops i (a + 1) b (by omega)
      rw [ha.2.2] at h1le
      have hb2 : rank (getStatus (runOps grader (initQueue specs) (ops.take b)) i) = 2 := by
        cases hbs : getStatus (runOps grader (initQueue specs) (ops.take b)) i with
        | pending => rw [hbs] at h1le; simp [rank] at h1le
        | in_progress => exact absurd hbs hb.2.1
        | completed => simp [rank]
      have h2le : rank (getStatus (runOps grader (initQueue specs) (ops.take b)) i)
          ≤ rank (getStatus (runOps grader (initQueue specs) (ops.take (b + 1))) i) :=
        rank_take_mono grader specs ops i b (b + 1) (by omega)
      rw [hb2, hb.2.2] at h2le
      simp [rank] at h2le
    rcases Nat.lt_or_ge k1 k2 with hlt | hge
    · exact key k1 k2 h1 h2 hlt
    · exact key k2 k1 h2 h1 (by omega)
  · intro grader specs ops more
    rw [runOps_append]
    exact (run_facts grader more _).2.2.2.1
  · intro grader specs ops
    have hC := (run_facts grader ops (initQueue specs)).2.2.2.2 (by
      rw [initQueue_countC]; rfl)
    have hlen := (run_facts grader ops (initQueue specs)).1
    rw [initQueue_length] at hlen
    calc (runOps grader (initQueue specs) ops).completed
        = countC (runOps grader (initQueue specs) ops).items := hC
      _ ≤ (runOps grader (initQueue specs) ops).items.length := countC_le_length _
      _ = specs.length := hlen

/-- C3: submit with an out-of-range task id, or on an item whose status is
not exactly in_progress, fails with an error and returns a state equal to
the one before the call (every item's status, timestamps and result, and
the completed counter, unchanged). -/
theorem C3_submit_invalid_state_error (grader : Option Grader) (s : QueueState) (t : Int)
    (o : Option String)
    (h : t < 0 ∨ (s.items.length : Int) ≤ t
      ∨ (getItem s t.toNat).status ≠ .in_progress) :
    (∃ e, (submit_answer grader s t o).1 = .error e)
    ∧ (submit_answer grader s t o).2 = s := by
  by_cases h1 : t < 0 ∨ (s.items.length : Int) ≤ t
  · constructor
    · exact ⟨.unknown_task_id t, by simp only [submit_answer, if_pos h1]⟩
    · simp only [submit_answer, if_pos h1]
  · have h2 : (getItem s t.toNat).status ≠ Status.in_progress := by tauto
    constructor
    · refine ⟨.not_in_progress t (getItem s t.toNat).status, ?_⟩
      simp [submit_answer, h1, getItem] at h2 ⊢
      simp [h2, getItem]
    · simp [submit_answer, h1, getItem] at h2 ⊢
      simp [h2]

/-- Witness for C3 at a concrete queue: submitting task 0 before it was
leased fails and leaves the queue unchanged. -/
theorem C3_submit_invalid_state_error_witness :
    ((∃ e, (submit_answer none (initQueue [wSpec]) 0 (some "out.csv")).1 = .error e)
    ∧ (submit_answer none (initQueue [wSpec]) 0 (some "out.csv")).2 = initQueue [wSpec]) :=
  C3_submit_invalid_state_error none (initQueue [wSpec]) 0 (some "out.csv") (by decide)

theorem leaseScan_erase (now : Nat) (items : List QueueItem) :
    leaseScan now (items.map eraseItem)
      = Option.map (fun p => (p.1, p.2.map eraseItem)) (leaseScan now items) := by
  induction items with
  | nil => simp [leaseScan]
  | cons it rest ih =>
    by_cases hp : it.status = Status.pending
    · have hp2 : (eraseItem it).status = Status.pending := hp
      simp only [List.map_cons, leaseScan, if_pos hp, if_pos hp2]
      rfl
    · have hp2 : ¬(eraseItem it).status = Status.pending := hp
      simp only [List.map_cons, leaseScan, if_neg hp, if_neg hp2, ih]
      cases leaseScan now rest with
      | none => rfl
      | some p => rfl

/-- C5: a successful lease returns a view built from exactly the task id,
spec id, instruction, input reference and metadata, and never the answer
reference: two queues whose items agree after erasing answer references
produce identical lease views and answer-erased successor states. -/
theorem C5_lease_view_never_contains_answer :
    (∀ s v s2, next_task s = (some v, s2) →
      ∃ n, n < s.items.length ∧
        v = { task_id := (getItem s n).id
              id := (getItem s n).spec.id
              instruction := (getItem s n).spec.instruction
              input := (getItem s n).spec.input_path
              meta := (getItem s n).spec.meta })
    ∧ (∀ s1 s2, eraseState s1 = eraseState s2 →
        (next_task s1).1 = (next_task s2).1
        ∧ eraseState (next_task s1).2 = eraseState (next_task s2).2) := by
  constructor
  · intro s v s2 h
    obtain ⟨n, hn, _, _, hview, _⟩ := next_task_some_spec s v s2 h
    exact ⟨n, hn, hview⟩
  · intro s1 s2 hE
    obtain ⟨i1, p1, c1, d1, n1⟩ := s1
    obtain ⟨i2, p2, c2, d2, n2⟩ := s2
    simp only [eraseState, QueueState.mk.injEq] at hE
    obtain ⟨hitems, hp, hc, hd, hnow⟩ := hE
    subst hp; subst hc; subst hd; subst hnow
    have h1 := leaseScan_erase n1 i1
    have h2 := leaseScan_erase n1 i2
    rw [hitems] at h1
    rw [h2] at h1
    simp only [next_task]
    cases hs1 : leaseScan n1 i1 with
    | none =>
      rw [hs1] at h1
      cases hs2 : leaseScan n1 i2 with
      | some p => rw [hs2] at h1; simp at h1
      | none => simp [eraseState, QueueState.mk.injEq, hitems]
    | some p =>
      obtain ⟨v1, l1⟩ := p
      rw [hs1] at h1
      cases hs2 : leaseScan n1 i2 with
      | none => rw [hs2] at h1; simp at h1
      | some q =>
        obtain ⟨v2, l2⟩ := q
        rw [hs2] at h1
        simp only [Option.map_some', Option.some.injEq, Prod.mk.injEq] at h1
        obtain ⟨hv, hl⟩ := h1
        subst hv
        simp [eraseState, QueueState.mk.injEq, hl]

theorem submitGrade_no_out (grader : Option Grader) (sp : TaskSpec) :
    submitGrade grader sp none = [] := by cases grader <;> rfl

theorem submitGradeOpt_no_out (grader : Option Grader) (sp : TaskSpec) :
    submitGradeOpt grader sp none = none := by
  simp [submitGradeOpt, submitGrade_no_out]

theorem submitRecord_no_out (grader : Option Grader) (it : QueueItem) (now : Nat) :
    submitRecord grader it none now
      = { task_id := it.id, spec_id := it.spec.id, output_path := none,
          grade := none, submitted_at := now } := by
  simp [submitRecord, submitGradeOpt_no_out, submitPOut]

theorem submitItem_no_out (grader : Option Grader) (it : QueueItem) (now : Nat) :
    submitItem grader it none now
      = { it with
          status := .completed
          finished_at := some now
          result := some { task_id := it.id, spec_id := it.spec.id,
                           output_path := none, grade := none,
                           submitted_at := now } } := by
  simp [submitItem, submitRecord_no_out]

/-- C10: when no grading callback is configured, or no output reference is
supplied, or the callback returns an empty map, the grading outcome in the
acknowledgement and in the persisted record is null; with no output
reference the callback is not invoked at all (the result does not depend
on the configured grader). -/
theorem C10_empty_grading_is_null (s : QueueState) (t : Int) (o : Option String) (g : Grader)
    (hn : 0 ≤ t ∧ t < (s.items.length : Int))
    (hst : (getItem s t.toNat).status = .in_progress) :
    (∀ g1 g2 : Option Grader, submit_answer g1 s t none = submit_answer g2 s t none)
    ∧ (submit_answer none s t o).1
        = .ok { ok := true, grade := none, completed := s.completed + 1,
                total := s.items.length }
    ∧ ((submit_answer none s t o).2.results_disk).lookup (getItem s t.toNat).id
        = some { task_id := (getItem s t.toNat).id,
                 spec_id := (getItem s t.toNat).spec.id,
                 output_path := submitPOut o, grade := none,
                 submitted_at := s.now }
    ∧ (submit_answer (some g) s t none).1
        = .ok { ok := true, grade := none, completed := s.completed + 1,
                total := s.items.length }
    ∧ (∀ out, out ≠ "" → g (getItem s t.toNat).spec out = .ok [] →
        (submit_answer (some g) s t (some out)).1
          = .ok { ok := true, grade := none, completed := s.completed + 1,
                  total := s.items.length }
        ∧ ((submit_answer (some g) s t (some out)).2.results_disk).lookup
              (getItem s t.toNat).id
            = some { task_id := (getItem s t.toNat).id,
                     spec_id := (getItem s t.toNat).spec.id,
                     output_path := some out, grade := none,
                     submitted_at := s.now }) := by
  have h1 : ¬(t < 0 ∨ (s.items.length : Int) ≤ t) := by omega
  have h2 : ¬((s.items.getD t.toNat dfltItem).status ≠ Status.in_progress) := by
    simp only [getItem] at hst
    exact not_not_intro hst
  have hng : submitGrade none (s.items.getD t.toNat dfltItem).spec (submitPOut o)
      = [] := by
    cases o with
    | none => exact submitGrade_no_out _ _
    | some x =>
      by_cases hx : x = "" <;> simp [submitGrade, submitPOut, hx]
  have hngo : submitGradeOpt none (s.items.getD t.toNat dfltItem).spec (submitPOut o)
      = none := by
    simp only [submitGradeOpt]
    rw [hng]
    simp
  refine ⟨?_, ?_, ?_, ?_, ?_⟩
  · intro g1 g2
    simp only [submit_answer, submitPOut, submitGradeOpt_no_out,
      submitItem_no_out, submitRecord_no_out]
  · simp only [submit_answer, if_neg h1, if_neg h2]
    rw [hngo]
  · simp only [submit_answer, if_neg h1, if_neg h2, writeResult, submitRecord]
    rw [hngo]
    simp [List.lookup, getItem]
  · simp only [submit_answer, if_neg h1, if_neg h2, submitPOut,
      submitGradeOpt_no_out]
  · intro out hout hok
    have hpo : submitPOut (some out) = some out := by simp [submitPOut, hout]
    have hgro : submitGradeOpt (some g) (s.items.getD t.toNat dfltItem).spec
        (submitPOut (some out)) = none := by
      rw [hpo]
      simp only [getItem] at hok
      simp only [submitGradeOpt, submitGrade]
      rw [hok]
      simp
    constructor
    · simp only [submit_answer, if_neg h1, if_neg h2]
      rw [hgro]
    · simp only [submit_answer, if_neg h1, if_neg h2, writeResult, submitRecord]
      rw [hgro, hpo]
      simp [List.lookup, getItem]

/-- C6: when the configured grading callback raises, submit does not
propagate the exception: it returns ok with a structured grading-error
outcome, the item still transitions to completed, the counter is
incremented, and the persisted record carries the grading-error outcome. -/
theorem C6_grading_error_absorbed (g : Grader) (s : QueueState) (t : Int) (out msg : String)
    (hout : out ≠ "")
    (hn : 0 ≤ t ∧ t < (s.items.length : Int))
    (hst : (getItem s t.toNat).status = .in_progress)
    (hg : g (getItem s t.toNat).spec out = .error msg) :
    (submit_answer (some g) s t (some out)).1
      = .ok { ok := true
              grade := some [("status", "grading_error"), ("error", msg)]
              completed := s.completed + 1
              total := s.items.length }
    ∧ getStatus (submit_answer (some g) s t (some out)).2 t.toNat = .completed
    ∧ (submit_answer (some g) s t (some out)).2.completed = s.completed + 1
    ∧ ((submit_answer (some g) s t (some out)).2.results_disk).lookup
          (getItem s t.toNat).id
        = some { task_id := (getItem s t.toNat).id
                 spec_id := (getItem s t.toNat).spec.id
                 output_path := some out
                 grade := some [("status", "grading_error"), ("error", msg)]
                 submitted_at := s.now } := by
  have h1 : ¬(t < 0 ∨ (s.items.length : Int) ≤ t) := by omega
  have h2 : ¬((s.items.getD t.toNat dfltItem).status ≠ Status.in_progress) := by
    simp only [getItem] at hst
    exact not_not_intro hst
  have hpo : submitPOut (some out) = some out := by simp [submitPOut, hout]
  have hgro : submitGradeOpt (some g) (s.items.getD t.toNat dfltItem).spec
      (submitPOut (some out))
      = some [("status", "grading_error"), ("error", msg)] := by
    rw [hpo]
    simp only [getItem] at hg
    simp only [submitGradeOpt, submitGrade]
    rw [hg]
    simp
  refine ⟨?_, ?_, ?_, ?_⟩
  · simp only [submit_answer, if_neg h1, if_neg h2]
    rw [hgro]
  · simp only [submit_answer, if_neg h1, if_neg h2]
    have hn2 : t.toNat < s.items.length := by omega
    simp only [getStatus, getItem, getD_set_self s.items _ _ dfltItem hn2]
    rfl
  · simp only [submit_answer, if_neg h1, if_neg h2]
  · simp only [submit_answer, if_neg h1, if_neg h2, writeResult, submitRecord]
    rw [hgro, hpo]
    simp [List.lookup, getItem]

/-- Witness for C6 at a concrete queue whose grader always raises. -/
theorem C6_grading_error_absorbed_witness :
    (submit_answer (some gBoom) wState 0 (some "out.csv")).1
      = .ok { ok := true
              grade := some [("status", "grading_error"), ("error", "boom")]
              completed := wState.completed + 1
              total := wState.items.length }
    ∧ getStatus (submit_answer (some gBoom) wState 0 (some "out.csv")).2 (0 : Int).toNat
        = .completed
    ∧ (submit_answer (some gBoom) wState 0 (some "out.csv")).2.completed
        = wState.completed + 1
    ∧ ((submit_answer (some gBoom) wState 0 (some "out.csv")).2.results_disk).lookup
          (getItem wState (0 : Int).toNat).id
        = some { task_id := (getItem wState (0 : Int).toNat).id
                 spec_id := (getItem wState (0 : Int).toNat).spec.id
                 output_path := some "out.csv"
                 grade := some [("status", "grading_error"), ("error", "boom")]
                 submitted_at := wState.now } :=
  C6_grading_error_absorbed gBoom wState 0 "out.csv" "boom" (by decide) (by decide) (by decide) rfl

/-- Witness for C10 at a concrete leased queue. -/
theorem C10_empty_grading_is_null_witness :
    (∀ g1 g2 : Option Grader,
        submit_answer g1 wState 0 none = submit_answer g2 wState 0 none)
    ∧ (submit_answer none wState 0 (some "out.csv")).1
        = .ok { ok := true, grade := none, completed := wState.completed + 1,
                total := wState.items.length }
    ∧ ((submit_answer none wState 0 (some "out.csv")).2.results_disk).lookup
          (getItem wState (0 : Int).toNat).id
        = some { task_id := (getItem wState (0 : Int).toNat).id,
                 spec_id := (getItem wState (0 : Int).toNat).spec.id,
                 output_path := submitPOut (some "out.csv"), grade := none,
                 submitted_at := wState.now }
    ∧ (submit_answer (some gEmpty) wState 0 none).1
        = .ok { ok := true, grade := none, completed := wState.completed + 1,
                total := wState.items.length }
    ∧ (∀ out, out ≠ "" → gEmpty (getItem wState (0 : Int).toNat).spec out = .ok [] →
        (submit_answer (some gEmpty) wState 0 (some out)).1
          = .ok { ok := true, grade := none, completed := wState.completed + 1,
                  total := wState.items.length }
        ∧ ((submit_answer (some gEmpty) wState 0 (some out)).2.results_disk).lookup
              (getItem wState (0 : Int).toNat).id
            = some { task_id := (getItem wState (0 : Int).toNat).id,
                     spec_id := (getItem wState (0 : Int).toNat).spec.id,
                     output_path := some out, grade := none,
                     submitted_at := wState.now }) :=
  C10_empty_grading_is_null wState 0 (some "out.csv") gEmpty (by decide) (by decide)

/-- C7: when checkout_one fails at any stage before the final move
(registry lookup, fetch, copy to the working directory, or a transform
step), the installed destinations are exactly as before the call and no
staging temporary directory is left behind. -/
theorem C7_checkout_failure_leaves_destination (fetch copyTree : String → Except String String)
    (transformRun : List String → String → Except String String)
    (w : World) (dataset_id : String) (update : Bool)
    (hw : w.tmpExists = false)
    (herr : isErr (checkout_one fetch copyTree transformRun w dataset_id update).1
      = true) :
    (checkout_one fetch copyTree transformRun w dataset_id update).2.dests = w.dests
    ∧ (checkout_one fetch copyTree transformRun w dataset_id update).2.tmpExists
        = false := by
  revert herr
  unfold checkout_one
  split
  · intro _
    exact ⟨rfl, hw⟩
  · split
    · intro h
      simp [isErr] at h
    · split
      · intro _
        exact ⟨rfl, rfl⟩
      · split
        · intro _
          exact ⟨rfl, rfl⟩
        · split
          · intro _
            exact ⟨rfl, rfl⟩
          · intro h
            simp [isErr] at h

/-- Witness for C7 at a concrete world: a lookup failure leaves the
destinations untouched. -/
theorem C7_checkout_failure_leaves_destination_witness :
    (checkout_one (fun _ => .ok "c") (fun c => .ok c) (fun _ c => .ok c)
        wNoReg "d" false).2.dests = wNoReg.dests
    ∧ (checkout_one (fun _ => .ok "c") (fun c => .ok c) (fun _ c => .ok c)
        wNoReg "d" false).2.tmpExists = false :=
  C7_checkout_failure_leaves_destination (fun _ => .ok "c") (fun c => .ok c) (fun _ c => .ok c)
    wNoReg "d" false rfl (by decide)

/-- C8 counterexample: a dataset id absent from the registry whose
destination directory already exists makes checkout_one raise the
registry error instead of returning the destination, because the registry
lookup precedes the cache-hit check. -/
theorem C8_cex_unregistered_id :
    (wNoReg.dests.lookup "d").isSome = true
    ∧ (checkout_one (fun _ => .ok "c") (fun c => .ok c) (fun _ c => .ok c)
        wNoReg "d" false).1
      = .error "Dataset d not found in registry" := by
  constructor
  · decide
  · rfl

/-- C8 (amended): for every registered dataset id whose destination
already exists, a call with update false returns the destination
immediately and leaves the world entirely unchanged — no fetch, no disk
work. -/
theorem C8_checkout_cache_hit_registered (fetch copyTree : String → Except String String)
    (transformRun : List String → String → Except String String)
    (w : World) (dataset_id : String)
    (hreg : (w.registry.lookup dataset_id).isSome = true)
    (hdst : (w.dests.lookup dataset_id).isSome = true) :
    checkout_one fetch copyTree transformRun w dataset_id false
      = (.ok dataset_id, w) := by
  unfold checkout_one
  split
  · rename_i hnone
    rw [hnone] at hreg
    simp at hreg
  · rw [if_pos ⟨hdst, by simp⟩]

/-- Witness for C8 at a concrete registered, already-present dataset. -/
theorem C8_checkout_cache_hit_registered_witness :
    checkout_one (fun _ => .ok "c") (fun c => .ok c) (fun _ c => .ok c)
        wReg "d" false
      = (.ok "d", wReg) :=
  C8_checkout_cache_hit_registered (fun _ => .ok "c") (fun c => .ok c) (fun _ c => .ok c)
    wReg "d" (by decide) (by decide)

theorem parseTasksAux_length (root : String) (recs : List TaskRecord) :
    ∀ k, (parseTasksAux root k recs).length = recs.length := by
  induction recs with
  | nil => intro k; rfl
  | cons r rest ih =>
    intro k
    simp only [parseTasksAux, List.length_cons, ih (k + 1)]

theorem parseTasksAux_getD (root : String) (recs : List TaskRecord) :
    ∀ k n, n < recs.length →
      (parseTasksAux root k recs).getD n dfltSpec
        = mkSpecFromRecord root (k + n) (recs.getD n dfltRec) := by
  induction recs with
  | nil => intro k n hn; simp at hn
  | cons r rest ih =>
    intro k n hn
    cases n with
    | zero => rfl
    | succ m =>
      simp only [List.length_cons] at hn
      simp only [parseTasksAux, List.getD_cons_succ]
      rw [ih (k + 1) m (by omega)]
      congr 1
      omega

/-- C9 counterexample: an id that is present but empty is replaced by the
positional placeholder, not used verbatim. -/
theorem C9_cex_empty_id_not_verbatim :
    recEmptyId.id = some ""
    ∧ _parse_tasks "/r" (.arr [recEmptyId])
      = .ok [{ id := "task-1", instruction := "do X", input_path := none,
               answer_path := none, meta := [] }] :=
  ⟨rfl, rfl⟩

/-- C9 (amended): the record's id (or else name) field is used verbatim
when present and truthy (non-empty); otherwise the positional placeholder
id is synthesized; the instruction is used verbatim when present and
truthy, a templated string referencing the id otherwise; absent
input/answer fields yield no references; remaining fields become metadata;
and the concrete one-record manifest from the spec parses as stated. -/
theorem C9_manifest_record_mapping (root : String) (recs : List TaskRecord) (n : Nat)
    (hn : n < recs.length) :
    ((∀ sid, (recs.getD n dfltRec).id = some sid → sid ≠ "" →
        ((parseTasksAux root 0 recs).getD n dfltSpec).id = sid)
    ∧ (pyTruthy (recs.getD n dfltRec).id = none →
        ∀ snm, (recs.getD n dfltRec).name = some snm → snm ≠ "" →
          ((parseTasksAux root 0 recs).getD n dfltSpec).id = snm)
    ∧ (pyTruthy (recs.getD n dfltRec).id = none →
        pyTruthy (recs.getD n dfltRec).name = none →
          ((parseTasksAux root 0 recs).getD n dfltSpec).id
            = "task-" ++ toString (n + 1))
    ∧ (∀ si, (recs.getD n dfltRec).instruction = some si → si ≠ "" →
        ((parseTasksAux root 0 recs).getD n dfltSpec).instruction = si)
    ∧ (pyTruthy (recs.getD n dfltRec).instruction = none →
        ((parseTasksAux root 0 recs).getD n dfltSpec).instruction
          = "Run benchmark task " ++ sq
            ++ ((parseTasksAux root 0 recs).getD n dfltSpec).id ++ sq ++ ".")
    ∧ ((recs.getD n dfltRec).input = none →
        ((parseTasksAux root 0 recs).getD n dfltSpec).input_path = none)
    ∧ ((recs.getD n dfltRec).answer = none →
        ((parseTasksAux root 0 recs).getD n dfltSpec).answer_path = none)
    ∧ ((parseTasksAux root 0 recs).getD n dfltSpec).meta
        = (recs.getD n dfltRec).extra
    ∧ _parse_tasks root (.arr [recT1])
        = .ok [{ id := "t1", instruction := "do X", input_path := none,
                 answer_path := none, meta := [] }]) := by
  have hspec : (parseTasksAux root 0 recs).getD n dfltSpec
      = mkSpecFromRecord root n (recs.getD n dfltRec) := by
    rw [parseTasksAux_getD root recs 0 n hn]
    simp
  rw [hspec]
  generalize recs.getD n dfltRec = r
  obtain ⟨rid, rnm, rins, rin, rans, rex⟩ := r
  refine ⟨?_, ?_, ?_, ?_, ?_, ?_, ?_, ?_, rfl⟩
  · intro sid hsid hne
    simp only at hsid
    subst hsid
    simp [mkSpecFromRecord, pyTruthy, hne]
  · intro hid snm hsnm hne
    simp only [pyTruthy] at hid
    simp only at hsnm
    subst hsnm
    simp [mkSpecFromRecord, pyTruthy, hid, hne]
  · intro hid hnm
    simp only [pyTruthy] at hid hnm
    simp [mkSpecFromRecord, pyTruthy, hid, hnm]
  · intro si hsi hne
    simp only at hsi
    subst hsi
    simp [mkSpecFromRecord, pyTruthy, hne]
  · intro hinstr
    simp only [pyTruthy] at hinstr
    simp [mkSpecFromRecord, pyTruthy, hinstr]
  · intro hin
    simp only at hin
    subst hin
    simp [mkSpecFromRecord, maybe_rel]
  · intro hans
    simp only at hans
    subst hans
    simp [mkSpecFromRecord, maybe_rel]
  · simp [mkSpecFromRecord]

/-- Witness for C9 at the concrete one-record manifest from the spec. -/
theorem C9_manifest_record_mapping_witness :
    ((∀ sid, (([recT1] : List TaskRecord).getD 0 dfltRec).id = some sid → sid ≠ "" →
        ((parseTasksAux "/r" 0 [recT1]).getD 0 dfltSpec).id = sid)
    ∧ (pyTruthy (([recT1] : List TaskRecord).getD 0 dfltRec).id = none →
        ∀ snm, (([recT1] : List TaskRecord).getD 0 dfltRec).name = some snm → snm ≠ "" →
          ((parseTasksAux "/r" 0 [recT1]).getD 0 dfltSpec).id = snm)
    ∧ (pyTruthy (([recT1] : List TaskRecord).getD 0 dfltRec).id = none →
        pyTruthy (([recT1] : List TaskRecord).getD 0 dfltRec).name = none →
          ((parseTasksAux "/r" 0 [recT1]).getD 0 dfltSpec).id
            = "task-" ++ toString (0 + 1))
    ∧ (∀ si, (([recT1] : List TaskRecord).getD 0 dfltRec).instruction = some si → si ≠ "" →
        ((parseTasksAux "/r" 0 [recT1]).getD 0 dfltSpec).instruction = si)
    ∧ (pyTruthy (([recT1] : List TaskRecord).getD 0 dfltRec).instruction = none →
        ((parseTasksAux "/r" 0 [recT1]).getD 0 dfltSpec).instruction
          = "Run benchmark task " ++ sq
            ++ ((parseTasksAux "/r" 0 [recT1]).getD 0 dfltSpec).id ++ sq ++ ".")
    ∧ ((([recT1] : List TaskRecord).getD 0 dfltRec).input = none →
        ((parseTasksAux "/r" 0 [recT1]).getD 0 dfltSpec).input_path = none)
    ∧ ((([recT1] : List TaskRecord).getD 0 dfltRec).answer = none →
        ((parseTasksAux "/r" 0 [recT1]).getD 0 dfltSpec).answer_path = none)
    ∧ ((parseTasksAux "/r" 0 [recT1]).getD 0 dfltSpec).meta
        = (([recT1] : List TaskRecord).getD 0 dfltRec).extra
    ∧ _parse_tasks "/r" (.arr [recT1])
        = .ok [{ id := "t1", instruction := "do X", input_path := none,
                 answer_path := none, meta := [] }]) :=
  C9_manifest_record_mapping "/r" [recT1] 0 (by decide)


end Arena
